import Mathlib

/-!
Verification development for the `squash_migrations` management command
(django-squash).  The Python source is shallowly embedded: pure functions
become Lean functions, in-place object mutation becomes explicit state
passing (a heap of function objects, updated record values), and fallible
code (KeyError / IndexError / AttributeError) returns `Option`.

Python string primitives (`str.replace`, `str.split`, `str.strip`,
`int(...)`, `"%04i"`, `"\n".join`, `sorted`) are re-implemented below over
`List Char` so that every definition evaluates inside the kernel.  Python's
`sorted` is a stable sort; any stable sort agrees with it element-for-element,
so a stable insertion sort is used.
-/

namespace DjangoSquash

/-- Strict code-point lexicographic comparison of character lists; this is
exactly Python's `<` on `str` values. -/
def charListLt : List Char → List Char → Bool
  | [], [] => false
  | [], _ :: _ => true
  | _ :: _, [] => false
  | a :: as, b :: bs => decide (a < b) || (a == b && charListLt as bs)

/-- Python `s1 < s2` on strings. -/
def strLt (a b : String) : Bool := charListLt a.data b.data

/-- Python `s1 <= s2` on strings (the negation of `s2 < s1`). -/
def strLe (a b : String) : Bool := !(charListLt b.data a.data)

/-- Does the first list start with the second one? -/
def listStartsWith : List Char → List Char → Bool
  | _, [] => true
  | [], _ :: _ => false
  | a :: as, b :: bs => a == b && listStartsWith as bs

/-- Python `s.startswith(p)`. -/
def strStartsWith (s p : String) : Bool := listStartsWith s.data p.data

/-- Replace every non-overlapping occurrence of `pat` (scanned left to
right) by `rep`; Python `s.replace(pat, rep)` for a non-empty `pat`.
(An empty pattern returns the input unchanged; the source only replaces
the non-empty literals `DELETEMEPLEASE.` and `import DELETEMEPLEASE\n`.) -/
def replaceAllFuel (pat rep : List Char) : Nat → List Char → List Char
  | _, [] => []
  | 0, l => l
  | fuel + 1, c :: cs =>
    if pat.length = 0 then c :: cs
    else if listStartsWith (c :: cs) pat then
      rep ++ replaceAllFuel pat rep fuel ((c :: cs).drop pat.length)
    else c :: replaceAllFuel pat rep fuel cs

/-- The replacement scan with enough fuel to finish: each step consumes
at least one character (the pattern, when it matches, is non-empty), so
`l.length` steps always suffice and the fuel-exhausted branch is
unreachable. -/
def replaceAll (pat rep l : List Char) : List Char :=
  replaceAllFuel pat rep l.length l

/-- Python `s.replace(pat, rep)`. -/
def pyReplace (s pat rep : String) : String :=
  String.mk (replaceAll pat.data rep.data s.data)

/-- Split on every non-overlapping occurrence of a non-empty separator,
keeping empty segments; Python `s.split(sep)` for non-empty `sep`. -/
def splitOnFuel (sep : List Char) : Nat → List Char → List (List Char)
  | _, [] => [[]]
  | 0, l => [l]
  | fuel + 1, c :: cs =>
    if sep.length = 0 then [c :: cs]
    else if listStartsWith (c :: cs) sep then
      [] :: splitOnFuel sep fuel ((c :: cs).drop sep.length)
    else
      match splitOnFuel sep fuel cs with
      | [] => [[c]]
      | h :: t => (c :: h) :: t

/-- Python `s.split(sep)` for a non-empty separator; as for `replaceAll`,
`l.length` steps of fuel always suffice. -/
def pySplitOn (s sep : String) : List String :=
  (splitOnFuel sep.data s.data.length s.data).map String.mk

/-- Python `s.split()` (no argument): split on runs of whitespace,
discarding empty tokens.  `acc` holds the current token reversed. -/
def wsTokensAux (acc : List Char) : List Char → List (List Char)
  | [] => if acc.isEmpty then [] else [acc.reverse]
  | c :: cs =>
    if c.isWhitespace then
      if acc.isEmpty then wsTokensAux [] cs else acc.reverse :: wsTokensAux [] cs
    else wsTokensAux (c :: acc) cs

/-- Python `s.split()`. -/
def pySplitWs (s : String) : List String := (wsTokensAux [] s.data).map String.mk

/-- Python `s.strip()`: remove leading and trailing whitespace. -/
def pyStrip (s : String) : String :=
  String.mk (((s.data.dropWhile Char.isWhitespace).reverse.dropWhile Char.isWhitespace).reverse)

/-- Python `sep.join(parts)`. -/
def joinSep (sep : String) : List String → String
  | [] => ""
  | [x] => x
  | x :: y :: rest => x ++ sep ++ joinSep sep (y :: rest)

/-- Parse a non-empty all-ASCII-digit character list as a natural number;
`none` otherwise.  This is Python `int(s)` restricted to the digit strings
that four-digit migration ordinals actually are (Python additionally
accepts signs, surrounding whitespace and unicode digits). -/
def listToNat? (l : List Char) : Option Nat :=
  if l ≠ [] && l.all Char.isDigit then
    some (l.foldl (fun acc c => acc * 10 + (c.toNat - 48)) 0)
  else none

/-- Python `int(name[:4])` as used for migration ordinals. -/
def int4 (s : String) : Option Nat := listToNat? (s.data.take 4)

/-- Python `"%04i" % n` for a natural number: decimal digits left-padded
with zeros to width four. -/
def format04 (n : Nat) : String :=
  let s := toString n
  String.mk (List.replicate (4 - s.data.length) ('0')) ++ s

/-- Add an element to a Python-set modelled as a duplicate-free list that
remembers insertion order (the carried order is irrelevant to set
semantics; an explicit enumeration parameter is applied wherever the
source iterates a set in an order-sensitive way). -/
def addToSet (s : List String) (x : String) : List String :=
  if s.contains x then s else s ++ [x]

/-- Python `set.update` / repeated `set.add`. -/
def setUpdate (s : List String) (xs : List String) : List String :=
  xs.foldl addToSet s

/-- Python `set.discard`. -/
def setDiscard (s : List String) (x : String) : List String :=
  s.filter (fun y => y ≠ x)

def dedupFuel : Nat → List String → List String
  | _, [] => []
  | 0, l => l
  | fuel + 1, x :: xs => x :: dedupFuel fuel (xs.filter fun y => y ≠ x)

/-- Remove later duplicates, keeping first occurrences (used to give a
list of set members a canonical duplicate-free form); filtering never
grows the list, so `l.length` steps of fuel always suffice. -/
def dedupKeepFirst (l : List String) : List String := dedupFuel l.length l

/-- Stable insertion into a sorted list: the new element goes before the
first element it is `leB`-below-or-tied-with is false... it is placed
before the first `y` with `leB x y`; on ties the earlier-input element
(the inserted one, which precedes in input order) stays first. -/
def insertOrd (leB : α → α → Bool) (x : α) : List α → List α
  | [] => [x]
  | y :: ys => if leB x y then x :: y :: ys else y :: insertOrd leB x ys

/-- Stable insertion sort; extensionally equal to Python's stable
`sorted(l, key=...)` for the same total preorder. -/
def isort (leB : α → α → Bool) : List α → List α
  | [] => []
  | x :: xs => insertOrd leB x (isort leB xs)

/-- A migration identity: the `(app, migration_name)` tuple keying the
dependency graph's `node_map` and `loader.disk_migrations`. -/
abbrev Ident := String × String

/-- A Python function object as far as `copy_func` observes it: the
identity of its `__code__` object (shared between a function and its
copy, and determining `inspect.getsource`), the `__name__` entry of its
`__globals__` (which `types.FunctionType` installs as a new function's
`__module__`), its `__name__`, its source text, and its mutable
`__module__` attribute. -/
structure Func where
  code : Nat
  globalsName : String
  fname : String
  src : String
  module : String
deriving DecidableEq

instance : Inhabited Func := ⟨⟨0, "", "", "", ""⟩⟩

/-- The function heap: function objects indexed by allocation order. -/
abbrev FuncHeap := List Func

/-- `copy_func(f)` (source line 79): `types.FunctionType(f.__code__,
f.__globals__, name or f.__name__, f.__defaults__, f.__closure__)` — a
fresh function object sharing `__code__` (hence source text) whose
`__module__` is initialised from `f.__globals__['__name__']`. -/
def copy_func (f : Func) : Func :=
  { code := f.code, globalsName := f.globalsName, fname := f.fname
    src := f.src, module := f.globalsName }

/-- One migration operation.  `runPython` (django `RunPython`) holds a
reference into the function heap — its `code` attribute; `runSQL` is
django's `RunSQL`; `separateDatabaseAndState` holds the two nested
operation lists; `schemaOp` stands for every other (structural) operation
class.  Each constructor also carries its `elidable` flag and the pair
that django's external `OperationWriter(op).serialize()` produces for it
(the constructor-expression string and the import lines that expression
needs), since that serialisation is an external-collaborator function of
the operation alone. -/
inductive Operation : Type
  | schemaOp (elidable : Bool) (serStr : String) (serImports : List String)
  | runPython (codeRef : Nat) (elidable : Bool) (serStr : String) (serImports : List String)
  | runSQL (elidable : Bool) (serStr : String) (serImports : List String)
  | separateDatabaseAndState (state_operations database_operations : List Operation)
      (elidable : Bool) (serStr : String) (serImports : List String)

/-- The `elidable` attribute of an operation. -/
def Operation.elidable : Operation → Bool
  | .schemaOp e _ _ => e
  | .runPython _ e _ _ => e
  | .runSQL e _ _ => e
  | .separateDatabaseAndState _ _ e _ _ => e

/-- The serialised constructor expression `OperationWriter` yields. -/
def Operation.serStr : Operation → String
  | .schemaOp _ s _ => s
  | .runPython _ _ s _ => s
  | .runSQL _ s _ => s
  | .separateDatabaseAndState _ _ _ s _ => s

/-- The import lines `OperationWriter` yields for an operation. -/
def Operation.serImports : Operation → List String
  | .schemaOp _ _ i => i
  | .runPython _ _ _ i => i
  | .runSQL _ _ i => i
  | .separateDatabaseAndState _ _ _ _ i => i

/-- `isinstance(op, RunSQL) or isinstance(op, RunPython)`. -/
def Operation.isRaw : Operation → Bool
  | .runPython _ _ _ _ => true
  | .runSQL _ _ _ => true
  | _ => false

/-- A dependency entry of a freshly generated record: a raw `(app, name)`
tuple as produced by the diff engine, or the identity-adapter object the
second pass of `_detect_changes` substitutes for it. -/
inductive DepEntry : Type
  | raw (i : Ident)
  | adapter (i : Ident)
deriving DecidableEq

/-- The identity a dependency entry denotes; for the adapter this is what
its tuple-like `__getitem__`/`__iter__` expose. -/
def DepEntry.ident : DepEntry → Ident
  | .raw i => i
  | .adapter i => i

/-- A freshly generated change record, the in-memory `Migration` object
the detector owns:  identity fields, ordered operations, dependency
entries, the computed `replaces` list, the `initial` flag and the
`extra_imports` attribute installed by the rescue phase. -/
structure Migration where
  app_label : String
  name : String
  operations : List Operation
  dependencies : List DepEntry
  replaces : List Ident
  initial : Bool
  extra_imports : List String

/-- A loaded on-disk migration as `loader.disk_migrations` exposes it:
the `__module__` of the migration instance (used for `sys.modules` lookup
and import extraction) and its operation list. -/
structure DiskMigration where
  moduleName : String
  operations : List Operation

/-- The mapping `changes : app → ordered new records` in dict insertion
order. -/
abbrev Changes := List (String × List Migration)

/-- `loader.disk_migrations` as an association list in dict order. -/
abbrev Disk := List (Ident × DiskMigration)

/-- `all_custom_operations` (source lines 40-55): loop over the
operations, skip elidable ones, yield `RunSQL`/`RunPython`, and recurse
into a `SeparateDatabaseAndState`'s `state_operations` then its
`database_operations`.  The Python generator is pure and restartable; the
returned list is its finite yield sequence. -/
def all_custom_operations : List Operation → List Operation
  | [] => []
  | op :: rest =>
    if op.elidable then all_custom_operations rest
    else
      match op with
      | .runSQL _ _ _ => op :: all_custom_operations rest
      | .runPython _ _ _ _ => op :: all_custom_operations rest
      | .separateDatabaseAndState st db _ _ _ =>
          all_custom_operations st ++ all_custom_operations db ++ all_custom_operations rest
      | .schemaOp _ _ _ => all_custom_operations rest

mutual

/-- Modelled from the claim's own wording, for comparison with
`all_custom_operations`: skip an operation entirely when its elidable
flag is true; yield it when it is a RawCodeOp (`RunPython`) or a
RawStatementOp (`RunSQL`); for a non-elidable CompositeOp recurse into
the state-effect list first and the storage-effect list second without
yielding the composite itself; every other variant yields nothing. -/
def opRescue : Operation → List Operation
  | .schemaOp _ _ _ => []
  | .runPython c e s im => if e then [] else [Operation.runPython c e s im]
  | .runSQL e s im => if e then [] else [Operation.runSQL e s im]
  | .separateDatabaseAndState st db e _ _ =>
      if e then [] else opsRescue st ++ opsRescue db

/-- The claim-worded classifier over an operation sequence: the
concatenation of each operation's contribution, in order. -/
def opsRescue : List Operation → List Operation
  | [] => []
  | op :: rest => opRescue op ++ opsRescue rest

end

/- The rescue loop of `add_non_elidables` (source lines 218-222) fused
with the classifier traversal it iterates over.  In Python the classifier
yields the very operation objects stored (possibly nested) in the
replaced record's operation list, and the loop body mutates each yielded
operation in place (`operation.code = copy_func(operation.code)` followed
by `operation.code.__module__ = 'DELETEMEPLEASE'`), so the record's
operation tree and the flat rescued list share the updated operations.
This value-level model therefore returns both: the operation tree with
the updates applied in place, and the rescued operations in yield order.
A yielded `RunSQL` has no `code` attribute, so reaching one raises
`AttributeError` (`none`).  (In Python `operation.code` is the function
object itself; the heap index is this model's rendering of an object
reference, so the `getD` default is unreachable for well-formed states.) -/
mutual

/-- The loop body applied to one operation in the traversal: an elidable
operation is skipped unchanged (its nested lists unscanned); a
non-elidable `RunPython` has its `code` replaced by a tagged copy
(`copy_func` then the `__module__` assignment) and is yielded; a
non-elidable `RunSQL` is yielded but evaluating its absent `code`
attribute raises; a non-elidable composite is rebuilt around its
processed nested lists, contributing their yields; anything else passes
through unyielded. -/
def processOp (heap : FuncHeap) : Operation → Option (FuncHeap × Operation × List Operation)
  | .schemaOp e s im => some (heap, .schemaOp e s im, [])
  | .runPython codeRef e s im =>
    if e then some (heap, .runPython codeRef e s im, [])
    else
      let f := heap.getD codeRef default
      let cp := copy_func f
      let newRef := heap.length
      let heap3 := (heap ++ [cp]).set newRef { cp with module := "DELETEMEPLEASE" }
      some (heap3, .runPython newRef e s im, [.runPython newRef e s im])
  | .runSQL e s im => if e then some (heap, .runSQL e s im, []) else none
  | .separateDatabaseAndState st db e s im =>
    if e then some (heap, .separateDatabaseAndState st db e s im, [])
    else
      match processOpList heap st with
      | none => none
      | some (h1, st2, rs) =>
        match processOpList h1 db with
        | none => none
        | some (h2, db2, rd) =>
          some (h2, Operation.separateDatabaseAndState st2 db2 e s im, rs ++ rd)

/-- The traversal over an operation list, threading the heap and
concatenating the yields in order. -/
def processOpList (heap : FuncHeap) : List Operation → Option (FuncHeap × List Operation × List Operation)
  | [] => some (heap, [], [])
  | op :: rest =>
    match processOp heap op with
    | none => none
    | some (h1, op2, r1) =>
      match processOpList h1 rest with
      | none => none
      | some (h2, rest2, r2) => some (h2, op2 :: rest2, r1 ++ r2)

end

/-- Per-app rescue over the replaced records (source lines 207-222): for
each replaced identity, look its loaded record up in
`loader.disk_migrations` (`KeyError` → `none`), extend the import
accumulator with the import lines of the record's defining module
(`get_imports(sys.modules[migration.__module__])`, an external static
parse supplied as `moduleImports`), run the rescue loop over its
operations, and thread the heap and the updated disk records.  Python's
up-front dict comprehension only fetches object references — the disk
mapping itself is never rebound, only the operation objects inside it are
mutated — so resolving each identity at processing time against the
threaded disk state is observationally identical. -/
def processReplaced (moduleImports : String → List String) :
    FuncHeap → Disk → List Ident → Option (FuncHeap × Disk × List Operation × List String)
  | heap, disk, [] => some (heap, disk, [], [])
  | heap, disk, r :: rest =>
    match disk.find? (fun p => p.1 == r) with
    | none => none
    | some dmp =>
      match processOpList heap dmp.2.operations with
      | none => none
      | some (h1, tree, resc) =>
        let disk1 := disk.map fun p =>
          if p.1 == r then (p.1, { moduleName := p.2.moduleName, operations := tree }) else p
        match processReplaced moduleImports h1 disk1 rest with
        | none => none
        | some (h2, d2, ops2, imp2) =>
          some (h2, d2, resc ++ ops2, moduleImports dmp.2.moduleName ++ imp2)

/-- `SquashMigrationAutodetector.add_non_elidables` (source lines
206-226).  Per app, the chain of every new record's `replaces` is
resolved through `loader.disk_migrations` and processed by the rescue
loop; the rescued operations are appended to the operations of the app's
**last** new record (`changes[app][-1]`; an empty record list would raise
`IndexError`, hence `none`) and the gathered import strings become that
record's `extra_imports`. -/
def add_non_elidables (moduleImports : String → List String) :
    FuncHeap → Disk → Changes → Option (FuncHeap × Disk × Changes)
  | heap, disk, [] => some (heap, disk, [])
  | heap, disk, (app, migs) :: restApps =>
    let replaced := (migs.map Migration.replaces).flatten
    match processReplaced moduleImports heap disk replaced with
    | none => none
    | some (h1, d1, ops, imps) =>
      match migs.getLast? with
      | none => none
      | some last =>
        let last2 := { last with operations := last.operations ++ ops, extra_imports := imps }
        match add_non_elidables moduleImports h1 d1 restApps with
        | none => none
        | some (h2, d2, c2) => some (h2, d2, (app, migs.dropLast ++ [last2]) :: c2)

/-- The per-app maximum-ordinal counters of `rename_migrations` (source
lines 245-247): a `defaultdict(int)` (so 0 for an app with no history)
updated with `max(int(migration[:4]), current)` over every node of the
loaded graph; an unparsable four-character prefix anywhere raises
`ValueError` (`none`).  The recursion combines from the right where
Python iterates from the left; `max` is commutative and associative, so
the resulting counters agree. -/
def currentCountersByApp : List Ident → Option (String → Nat)
  | [] => some fun _ => 0
  | (app, nm) :: rest =>
    match int4 nm, currentCountersByApp rest with
    | some n, some f => some fun a => if a = app then max n (f a) else f a
    | _, _ => none

/-- `migration_name or 'squashed'`: Python's `or` takes the default on an
empty (falsy) name. -/
def defaultSquashName (migration_name : String) : String :=
  if migration_name = "" then "squashed" else migration_name

/-- `SquashMigrationAutodetector.rename_migrations` (source lines
241-255).  `next_number` is recomputed from the *unchanged* counter
inside the loop — the counter is never stepped — so every new record of
an app receives the same number `counter + 1`. -/
def rename_migrations (nodeMap : List Ident) (changes : Changes) (migration_name : String) :
    Option Changes :=
  (currentCountersByApp nodeMap).map fun ctr =>
    changes.map fun p =>
      (p.1, p.2.map fun m =>
        { m with name := format04 (ctr p.1 + 1) ++ "_" ++ defaultSquashName migration_name })

/-- `migrations_by_app` (source lines 232-234): a `defaultdict(list)`
collecting `(app, migration)` for every node of the graph in iteration
order. -/
def migrationsByApp : List Ident → String → List Ident
  | [], _ => []
  | (a, n) :: rest, app =>
    (if a == app then [(a, n)] else []) ++ migrationsByApp rest app

/-- Python `<=` on `(str, str)` tuples: lexicographic with code-point
string comparison.  `sorted` on identity tuples is the stable sort by
this total preorder. -/
def identLe (x y : Ident) : Bool :=
  strLt x.1 y.1 || (x.1 == y.1 && strLe x.2 y.2)

/-- `SquashMigrationAutodetector.replace_current_migrations` (source
lines 228-239): every new record's `replaces` becomes
`sorted(migrations_by_app[app])`. -/
def replace_current_migrations (nodeMap : List Ident) (changes : Changes) : Changes :=
  changes.map fun p =>
    (p.1, p.2.map fun m => { m with replaces := isort identLe (migrationsByApp nodeMap p.1) })

/-- django's `Migration.__eq__`, inherited by the adapter class of source
lines 25-37: equal iff both are migrations with equal `name` and equal
`app_label`. -/
def migEq (m1 m2 : Migration) : Bool :=
  m1.name == m2.name && m1.app_label == m2.app_label

/-- `tuple(migration)`: the `(app_label, name)` identity that the
adapter's `__getitem__`/`__iter__` (source lines 27-31) expose. -/
def migrationKey (m : Migration) : Ident := (m.app_label, m.name)

/-- The string `"%s.%s" % (self.app_label, self.name)` whose Python hash
is the adapter's `__hash__` (inherited from django's
`Migration.__hash__`).  `hash` is a function of this string, so equal
strings force equal hash values; the string is kept unhashed here since
any concrete hash only loses information. -/
def hashKeyString (m : Migration) : String := m.app_label ++ "." ++ m.name

/-- First pass of `_detect_changes` (source lines 264-271): index every
new record by its identity with `dict.setdefault` — the first occurrence
of an identity wins.  (The `Migration.from_migration` wrapping is a
value-level no-op: it copies the object's `__dict__` into an adapter
carrying the same fields.) -/
def indexByName (migs : List Migration) : List (Ident × Migration) :=
  migs.foldl
    (fun idx m =>
      if (idx.find? (fun p => p.1 == migrationKey m)).isSome then idx
      else idx ++ [(migrationKey m, m)])
    []

/-- The loop of the second pass on one dependency list (source lines
275-277): append `migrations_by_name[dependency]` for each entry
(`KeyError` → `none`). -/
def rewriteDepList (idx : List (Ident × Migration)) : List DepEntry → Option (List DepEntry)
  | [] => some []
  | d :: rest =>
    match idx.find? (fun p => p.1 == d.ident) with
    | none => none
    | some p =>
      match rewriteDepList idx rest with
      | none => none
      | some ds => some (DepEntry.adapter p.1 :: ds)

/-- Second pass of `_detect_changes` (source lines 273-278) on one
record: replace each raw dependency tuple by the adapter indexed under
that identity. -/
def rewriteDeps (idx : List (Ident × Migration)) (m : Migration) : Option Migration :=
  (rewriteDepList idx m.dependencies).map fun ds => { m with dependencies := ds }

/-- Second pass over a record list.  `migrations_by_name.values()` holds
only the first record per identity, so a later duplicate of an
already-seen identity keeps its raw dependency tuples; `seen` carries the
identities indexed so far. -/
def rewriteList (idx : List (Ident × Migration)) :
    List Ident → List Migration → Option (List Migration × List Ident)
  | seen, [] => some ([], seen)
  | seen, m :: rest =>
    if seen.contains (migrationKey m) then
      (rewriteList idx seen rest).map fun pr => (m :: pr.1, pr.2)
    else
      match rewriteDeps idx m with
      | none => none
      | some m2 =>
        (rewriteList idx (seen ++ [migrationKey m]) rest).map fun pr => (m2 :: pr.1, pr.2)

/-- The second pass threaded over the whole mapping in dict order. -/
def detectRewriteApps (idx : List (Ident × Migration)) :
    List Ident → Changes → Option Changes
  | _, [] => some []
  | seen, (app, migs) :: rest =>
    match rewriteList idx seen migs with
    | none => none
    | some (ms, seen2) =>
      (detectRewriteApps idx seen2 rest).map fun c => (app, ms) :: c

/-- `SquashMigrationAutodetector._detect_changes` post-processing (source
lines 257-280) over the already-computed mapping: wrap every record in
the identity adapter, index the adapters by identity, then rewrite the
dependencies of every indexed record. -/
def detectChangesRewrite (changes : Changes) : Option Changes :=
  let idx := indexByName (changes.map Prod.snd).flatten
  detectRewriteApps idx [] changes

/-- The literal `"import"`. -/
def impKw : String := "import"

/-- The literal `"import "` (the keyword and one space). -/
def impKwSp : String := "import "

/-- The literal `"\n"`. -/
def nl : String := "\n"

/-- `"from django.conf import settings"` (source line 122). -/
def settingsImport : String := "from django.conf import settings"

/-- `"from django.db import models"` (source line 138). -/
def modelsImport : String := "from django.db import models"

/-- `"from django.db import migrations, models"` (source line 140). -/
def migrationsModelsImport : String := "from django.db import migrations, models"

/-- `"from django.db import migrations"` (source line 142). -/
def migrationsImport : String := "from django.db import migrations"

/-- The `"__setting__"` sentinel first element of a swappable dependency
(source line 120). -/
def settingTok : String := "__setting__"

/-- The sentinel attribution prefix stripped from rendered operations
(source line 197). -/
def deleteMeDot : String := "DELETEMEPLEASE."

/-- The sentinel import line stripped from the rendered import block
(source line 198). -/
def deleteMeImportLine : String := "import DELETEMEPLEASE\n"

/-- The manual-porting comment block prefix (source lines 149-154),
completed by the `"\n# "`-joined sorted offending module paths. -/
def manualCommentText : String :=
  "\n\n# Functions from the following migrations need manual copying.\n# Move them and any dependencies into this file, then update the\n# RunPython operations to refer to the local versions:\n# "

/-- The separator joining the manual-porting comment entries. -/
def commentSep : String := "\n# "

/-- `"\n    replaces = "`, the head of the replaces assignment (line 157). -/
def replacesPrefix : String := "\n    replaces = "

/-- `"\n    initial = True\n"` (source line 168). -/
def initialTrueStr : String := "\n    initial = True\n"

/-- `re.match(r"^import (.*)\.\d+[^\s]*$", line)` after the leading
`import `: somewhere a literal dot is followed by a digit and then only
non-whitespace characters up to the end of the line (the greedy `(.*)`
absorbs everything before such a dot, and `\d+[^\s]*` is one digit
followed by non-whitespace; Python's `$` would additionally tolerate one
trailing newline, which no import line contains). -/
def matchTailDotDigit : List Char → Bool
  | [] => false
  | '.' :: d :: rest =>
      (d.isDigit && rest.all (fun c => !c.isWhitespace)) || matchTailDotDigit (d :: rest)
  | _ :: rest => matchTailDotDigit rest

/-- Does `re.match(r"^import (.*)\.\d+[^\s]*$", line)` succeed (source
line 131)? -/
def manualMatch (line : String) : Bool :=
  strStartsWith line impKwSp && matchTailDotDigit (line.data.drop 7)

/-- `line.split("import")[1].strip()` (source line 132): the text between
the first and the second occurrence of `"import"` in the line, stripped.
A matching line starts with `import `, so the split has at least two
segments and Python's `[1]` cannot raise. -/
def extractMigrationImport (line : String) : String :=
  pyStrip ((pySplitOn line impKw).getD 1 "")

/-- `i.split()[1]` — the import sort key: the token after `import` or
`from` (source lines 144-146).  A line with fewer than two tokens would
raise `IndexError` in Python; claims below restrict to lines with at
least two tokens, where this total rendering agrees. -/
def importSortKey (line : String) : String := (pySplitWs line).getD 1 ""

/-- The total preorder `sorted(imports, key=lambda i: i.split()[1])`
sorts by. -/
def importLineLe (a b : String) : Bool := strLe (importSortKey a) (importSortKey b)

/-- Step one of `ReplacementMigrationWriter.get_kwargs` (source lines
107-115): serialise each operation in order, accumulating the import set
and the operation strings. -/
def opsAccumulate (m : Migration) : List String × List String :=
  m.operations.foldl (fun acc op => (setUpdate acc.1 op.serImports, acc.2 ++ [op.serStr])) ([], [])

/-- Step two (source lines 117-125): render each dependency in order — a
`__setting__` first element becomes a swappable-dependency call and adds
the settings import, any other dependency is serialised by django's
external serializer (`serializeDep`). -/
def depsAccumulate (serializeDep : DepEntry → String) (m : Migration) (imports : List String) :
    List String × List String :=
  m.dependencies.foldl
    (fun acc d =>
      if d.ident.1 == settingTok then
        (addToSet acc.1 settingsImport,
         acc.2 ++ ["        migrations.swappable_dependency(settings." ++ d.ident.2 ++ "),"])
      else
        (acc.1, acc.2 ++ ["        " ++ serializeDep d ++ ","]))
    (imports, [])

/-- The import-set contents accumulated by steps one and two — the set
the manual-porting scan runs over. -/
def accumulatedImports (serializeDep : DepEntry → String) (m : Migration) : List String :=
  (depsAccumulate serializeDep m (opsAccumulate m).1).1

/-- The `migration_imports` set (source lines 129-134): the stripped
split of every import line matching the historical-record pattern. -/
def migrationImportsOf (imports : List String) : List String :=
  dedupKeepFirst ((imports.filter manualMatch).map extractMigrationImport)

/-- The import set after the matching lines are removed (line 133). -/
def importsSansManual (imports : List String) : List String :=
  imports.filter fun l => !manualMatch l

/-- `needs_manual_porting` after the scan: set to `True` inside the loop
iff some line matched (source line 134). -/
def needsManualOf (imports : List String) : Bool := imports.any manualMatch

/-- Source lines 136-142: merge the models import into the always-present
migrations import. -/
def mergeModelsImport (imports : List String) : List String :=
  if imports.contains modelsImport then
    addToSet (setDiscard imports modelsImport) migrationsModelsImport
  else addToSet imports migrationsImport

/-- External inputs of the writer: django's value serializer applied to a
dependency and to a `replaces` list, the rendered header template
(django version and timestamp already spliced), and the iteration order
the process's string-hash seed gives the final import set (Python sets
iterate in an unspecified, seed-dependent order; `enum` fixes one). -/
structure WriterParams where
  serializeDep : DepEntry → String
  serializeReplaces : List Ident → String
  headerText : String
  enum : List String → List String

/-- The `items` dict `get_kwargs` returns, one field per template key. -/
structure Kwargs where
  replaces_str : String
  initial_str : String
  operations : String
  dependencies : String
  imports : String
  migration_header : String
  functions : String

/-- `ReplacementMigrationWriter.get_kwargs` (source lines 101-170),
returning the items dict and the `needs_manual_porting` flag the call
leaves on the writer instance. -/
def replacementGetKwargs (P : WriterParams) (m : Migration) (include_header : Bool) :
    Kwargs × Bool :=
  let opStrings := (opsAccumulate m).2
  let depStrings := (depsAccumulate P.serializeDep m (opsAccumulate m).1).2
  let accImports := accumulatedImports P.serializeDep m
  let migImports := migrationImportsOf accImports
  let imports2 := mergeModelsImport (importsSansManual accImports)
  let sortedImports := isort importLineLe (P.enum imports2)
  let importsStr :=
    (if imports2.isEmpty then "" else joinSep nl sortedImports ++ nl) ++
    (if migImports.isEmpty then "" else manualCommentText ++ joinSep commentSep (isort strLe migImports))
  ({ replaces_str :=
       if m.replaces.isEmpty then "" else replacesPrefix ++ P.serializeReplaces m.replaces ++ nl
     initial_str := if m.initial then initialTrueStr else ""
     operations := if opStrings.isEmpty then "" else joinSep nl opStrings ++ nl
     dependencies := if depStrings.isEmpty then "" else joinSep nl depStrings ++ nl
     imports := importsStr
     migration_header := if include_header then P.headerText else ""
     functions := "" },
   needsManualOf accImports)

/-- `MigrationWriter.get_kwargs` (source lines 188-201): collect
`inspect.getsource(operation.code)` for every `RunPython` operation,
strip the sentinel attribution from the rendered operations and the
sentinel import line from the import block, and join the function bodies. -/
def migrationWriterGetKwargs (P : WriterParams) (heap : FuncHeap) (m : Migration)
    (include_header : Bool) : Kwargs × Bool :=
  let kb := replacementGetKwargs P m include_header
  let functions := m.operations.filterMap fun op =>
    match op with
    | .runPython codeRef _ _ _ => some (heap.getD codeRef default).src
    | _ => none
  ({ kb.1 with
      operations := pyReplace kb.1.operations deleteMeDot ""
      imports := pyReplace kb.1.imports deleteMeImportLine ""
      functions := (if functions.isEmpty then "" else nl ++ nl) ++ joinSep (nl ++ nl) functions },
   kb.2)

/-- `MigrationWriter.template_class` (source lines 174-186) spliced with
an items dict. -/
def spliceTemplate (k : Kwargs) : String :=
  k.migration_header ++ k.imports ++ k.functions ++
    "\n\nclass Migration(migrations.Migration):\n" ++
    k.replaces_str ++ k.initial_str ++
    "\n    dependencies = [\n" ++ k.dependencies ++ "    ]\n\n    operations = [\n" ++
    k.operations ++ "    ]\n"

/-- `MigrationWriter(...).as_string()` (source lines 97-99 with the
subclass template and kwargs). -/
def migrationWriterAsString (P : WriterParams) (heap : FuncHeap) (m : Migration)
    (include_header : Bool) : String :=
  spliceTemplate (migrationWriterGetKwargs P heap m include_header).1

/-- `replacing_migrations` (source lines 345-347): the total number of
replaced identities over all returned records. -/
def replacingMigrationsCount (changes : Changes) : Nat :=
  (((changes.map Prod.snd).flatten).map fun m => m.replaces.length).foldl Nat.add 0

/-- The user-facing message of the nothing-to-squash error (line 350). -/
def squashErrorMsg : String := "There are no migrations to squash."

/-- `Command.write_migration_files` (source lines 354-397) with
`dry_run = False` and `include_header = False`: one file per new record,
modelled as the record's identity paired with `writer.as_string()`. -/
def writeMigrationFiles (P : WriterParams) (heap : FuncHeap) (changes : Changes) :
    List (Ident × String) :=
  (changes.map fun p => p.2.map fun m => ((p.1, m.name), migrationWriterAsString P heap m false)).flatten

/-- The tail of `Command.handle` (source lines 345-352) from the computed
mapping on: count the replaced identities, raise `CommandError` when the
count is zero — before any file is written — and otherwise write the
files. -/
def handleTail (P : WriterParams) (heap : FuncHeap) (changes : Changes) :
    Except String (List (Ident × String)) :=
  if replacingMigrationsCount changes = 0 then Except.error squashErrorMsg
  else Except.ok (writeMigrationFiles P heap changes)

/-- Modelled from the claim's wording: the greatest four-digit ordinal
prefix among a module's existing record names in the graph, 0 for a
module with no history. -/
def specMaxOrdinal (nodeMap : List Ident) (app : String) : Nat :=
  ((nodeMap.filter fun p => p.1 == app).filterMap fun p => int4 p.2).foldr max 0

/-- Python `s[n:]`: drop the first `n` characters. -/
def pyDrop (s : String) (n : Nat) : String := String.mk (s.data.drop n)

/-- The `__module__` attributions of the `RunPython` payloads of an
operation list, read through the function heap — what a consumer of the
record observes of each executable payload. -/
def payloadModules (heap : FuncHeap) : List Operation → List String
  | [] => []
  | Operation.runPython c _ _ _ :: rest => (heap.getD c default).module :: payloadModules heap rest
  | _ :: rest => payloadModules heap rest

/-- The payload attributions of every record of a disk mapping. -/
def diskPayloads (heap : FuncHeap) (d : Disk) : List (List String) :=
  d.map fun p => payloadModules heap p.2.operations

/-- The disk payload attributions of an `add_non_elidables` result. -/
def afterPayloads (r : FuncHeap × Disk × Changes) : List (List String) :=
  diskPayloads r.1 r.2.1

/-- A blank new record for building concrete inputs. -/
def baseMig : Migration :=
  { app_label := "app", name := "x", operations := [], dependencies := [],
    replaces := [], initial := false, extra_imports := [] }

/-- Concrete graph for the renaming counterexample: one existing record
with ordinal 2. -/
def c1NodeMap : List Ident := [("app", "0002_x")]

/-- Concrete changes for the renaming counterexample: one module with two
new records. -/
def c1Changes : Changes := [("app", [baseMig, baseMig])]

/-- The counters `currentCountersByApp c1NodeMap` computes. -/
def c1Ctr : String → Nat := fun a => if a = "app" then max 2 0 else 0

/-- Import extraction stub: a module with no import lines. -/
def noImports : String → List String := fun _ => []

/-- Disk history whose single replaced record holds one non-elidable
`RunSQL` operation. -/
def c2Disk : Disk :=
  [(("app", "0001_initial"),
    { moduleName := "app.migrations.0001_initial",
      operations := [Operation.runSQL false "RUNSQL" []] })]

/-- One new record replacing that history. -/
def c2Changes : Changes := [("app", [{ baseMig with replaces := [("app", "0001_initial")] }])]

/-- The loaded `populate` function of the replaced record. -/
def c4Func : Func :=
  { code := 7, globalsName := "app.migrations.0001_initial", fname := "populate",
    src := "def populate(apps, schema_editor):", module := "app.migrations.0001_initial" }

/-- Heap with just that function. -/
def c4Heap : FuncHeap := [c4Func]

/-- Disk history whose single replaced record holds one non-elidable
`RunPython` operation whose payload is `c4Func`. -/
def c4Disk : Disk :=
  [(("app", "0001_initial"),
    { moduleName := "app.migrations.0001_initial",
      operations := [Operation.runPython 0 false "PYSER" []] })]

/-- One new record replacing that history. -/
def c4Changes : Changes := [("app", [{ baseMig with replaces := [("app", "0001_initial")] }])]

/-- Import extraction yielding one line for every module. -/
def c4Imports : String → List String := fun _ => ["import datetime"]

/-- The copy of `c4Func` after the sentinel tagging. -/
def c4FuncTagged : Func :=
  { code := 7, globalsName := "app.migrations.0001_initial", fname := "populate",
    src := "def populate(apps, schema_editor):", module := "DELETEMEPLEASE" }

/-- The heap after the rescue: the original untouched, the tagged copy
appended. -/
def c4HeapOut : FuncHeap := [c4Func, c4FuncTagged]

/-- The disk mapping after the rescue: the replaced record's operation
now references the tagged copy. -/
def c4DiskOut : Disk :=
  [(("app", "0001_initial"),
    { moduleName := "app.migrations.0001_initial",
      operations := [Operation.runPython 1 false "PYSER" []] })]

/-- The changes after the rescue: the rescued operation appended to the
last (only) new record, `extra_imports` installed. -/
def c4ChangesOut : Changes :=
  [("app", [{ baseMig with
      replaces := [("app", "0001_initial")],
      operations := [Operation.runPython 1 false "PYSER" []],
      extra_imports := ["import datetime"] }])]

/-- Adapter identity `("a", "b.c")`. -/
def c5mA : Migration := { baseMig with app_label := "a", name := "b.c" }

/-- Adapter identity `("a.b", "c")`: a different identity whose hash key
string `"a.b.c"` coincides with `c5mA`'s. -/
def c5mB : Migration := { baseMig with app_label := "a.b", name := "c" }

/-- A first new record with no dependencies. -/
def c5m1 : Migration := { baseMig with app_label := "app", name := "0001_one" }

/-- A second new record depending on the first by raw identity tuple. -/
def c5m2 : Migration :=
  { baseMig with
    app_label := "app", name := "0002_two",
    dependencies := [DepEntry.raw ("app", "0001_one")] }

/-- Concrete mapping for the dependency-rewrite witness. -/
def c5Changes : Changes := [("app", [c5m1, c5m2])]

/-- Its expected rewrite: the raw tuple replaced by the adapter. -/
def c5Out : Changes :=
  [("app", [c5m1, { c5m2 with dependencies := [DepEntry.adapter ("app", "0001_one")] }])]

/-- Fixed external writer inputs: stub serializers, a header text, and
the identity enumeration of the import set. -/
def exParams : WriterParams :=
  { serializeDep := fun _ => "DEP", serializeReplaces := fun _ => "REPLACES",
    headerText := "HDR\n", enum := id }

/-- A record whose only operation needs the import line
`import important.0007_x` — a historical-record import whose module path
contains `import` as a substring. -/
def c7Mig : Migration :=
  { baseMig with operations := [Operation.schemaOp false "OP" ["import important.0007_x"]] }

/-- The module path of that import line. -/
def c7Path : String := "important.0007_x"

/-- A well-behaved historical-record import line. -/
def c7wLine : String := "import app.0007_something"

/-- A record whose only operation needs `c7wLine`. -/
def c7wMig : Migration :=
  { baseMig with operations := [Operation.schemaOp false "OP" [c7wLine]] }

/-- A record whose operation needs two import lines with the *same* sort
key `datetime` (the token after `import`/`from`). -/
def c8Mig : Migration :=
  { baseMig with
    operations :=
      [Operation.schemaOp false "OP" ["import datetime", "from datetime import timedelta"]] }

/-- Writer inputs enumerating the import set in insertion order. -/
def c8P1 : WriterParams := exParams

/-- The same writer inputs with the reversed enumeration — another
legitimate iteration order of the same Python set. -/
def c8P2 : WriterParams := { exParams with enum := List.reverse }

/-- The final import set of `c8Mig` (after the manual-porting scan and
the models merge), which the sort enumerates. -/
def c8Set : List String :=
  mergeModelsImport (importsSansManual (accumulatedImports exParams.serializeDep c8Mig))

/-- A record whose import lines have pairwise distinct sort keys. -/
def c8wMig : Migration :=
  { baseMig with
    operations :=
      [Operation.schemaOp false "OP" ["import datetime", "import zoneinfo"]] }

/-- Its final import set. -/
def c8wSet : List String :=
  mergeModelsImport (importsSansManual (accumulatedImports exParams.serializeDep c8wMig))

/-- A mapping whose records collectively replace nothing. -/
def c9Changes : Changes := [("app", [baseMig])]

/-- Concrete graph for the replaces witness. -/
def c3NodeMap : List Ident := [("b", "0001_i"), ("app", "0002_x"), ("app", "0001_i")]

/-- Concrete changes for the replaces witness. -/
def c3Changes : Changes := [("app", [baseMig])]

/-- The expected record after the replaces phase. -/
def c3MigOut : Migration := { baseMig with replaces := [("app", "0001_i"), ("app", "0002_x")] }

/-- A record with its raw dependency tuples replaced by the adapters
indexed under the same identities — the expected effect of the second
pass of `_detect_changes`. -/
def adapterize (m : Migration) : Migration :=
  { m with dependencies := m.dependencies.map fun d => DepEntry.adapter d.ident }

/-- The expected renaming of a changes mapping: every new record of an
app named with the app's maximum existing ordinal plus one. -/
def renameExpected (nodeMap : List Ident) (mname : String) (changes : Changes) : Changes :=
  changes.map fun p =>
    (p.1, p.2.map fun m =>
      { m with name := format04 (specMaxOrdinal nodeMap p.1 + 1) ++ "_" ++ defaultSquashName mname })

section ListLemmas

variable {α : Type} {leB : α → α → Bool}

theorem insertOrd_perm (x : α) : ∀ l : List α, (insertOrd leB x l).Perm (x :: l)
  | [] => List.Perm.refl _
  | y :: ys => by
    unfold insertOrd
    split
    · exact List.Perm.refl _
    · exact ((insertOrd_perm x ys).cons y).trans (List.Perm.swap x y ys)

theorem isort_perm : ∀ l : List α, (isort leB l).Perm l
  | [] => List.Perm.refl _
  | x :: xs => (insertOrd_perm x (isort leB xs)).trans ((isort_perm xs).cons x)

theorem mem_isort {a : α} {l : List α} : a ∈ isort leB l ↔ a ∈ l :=
  (isort_perm l).mem_iff

theorem mem_insertOrd {a x : α} {l : List α} :
    a ∈ insertOrd leB x l ↔ a = x ∨ a ∈ l := by
  rw [(insertOrd_perm x l).mem_iff, List.mem_cons]

theorem pairwise_insertOrd
    (htot : ∀ a b, leB a b = true ∨ leB b a = true)
    (htrans : ∀ a b c, leB a b = true → leB b c = true → leB a c = true)
    (x : α) : ∀ l : List α, List.Pairwise (fun a b => leB a b = true) l →
      List.Pairwise (fun a b => leB a b = true) (insertOrd leB x l)
  | [], _ => List.pairwise_singleton _ x
  | y :: ys, h => by
    rcases List.pairwise_cons.1 h with ⟨hy, hys⟩
    unfold insertOrd
    split
    · rename_i hxy
      refine List.pairwise_cons.2 ⟨?_, h⟩
      intro z hz
      rcases List.mem_cons.1 hz with rfl | hz
      · exact hxy
      · exact htrans x y z hxy (hy z hz)
    · rename_i hxy
      have hyx : leB y x = true := by
        rcases htot x y with h1 | h1
        · exact absurd h1 hxy
        · exact h1
      refine List.pairwise_cons.2 ⟨?_, pairwise_insertOrd htot htrans x ys hys⟩
      intro z hz
      rcases mem_insertOrd.1 hz with rfl | hz
      · exact hyx
      · exact hy z hz

theorem pairwise_isort
    (htot : ∀ a b, leB a b = true ∨ leB b a = true)
    (htrans : ∀ a b c, leB a b = true → leB b c = true → leB a c = true) :
    ∀ l : List α, List.Pairwise (fun a b => leB a b = true) (isort leB l)
  | [] => List.Pairwise.nil
  | x :: xs => pairwise_insertOrd htot htrans x (isort leB xs) (pairwise_isort htot htrans xs)

theorem sorted_perm_eq :
    ∀ {l₁ l₂ : List α},
      (∀ a ∈ l₁, ∀ b ∈ l₁, leB a b = true → leB b a = true → a = b) →
      l₁.Perm l₂ →
      List.Pairwise (fun a b => leB a b = true) l₁ →
      List.Pairwise (fun a b => leB a b = true) l₂ → l₁ = l₂
  | [], l₂, _, hp, _, _ => (List.Perm.nil_eq hp).symm ▸ rfl
  | a :: t₁, [], _, hp, _, _ => absurd hp (by simp)
  | a :: t₁, b :: t₂, hanti, hp, hs₁, hs₂ => by
    rcases List.pairwise_cons.1 hs₁ with ⟨ha1, ht₁⟩
    rcases List.pairwise_cons.1 hs₂ with ⟨hb2, ht₂⟩
    have hab : a = b := by
      rcases List.mem_cons.1 (hp.subset (List.mem_cons_self a t₁)) with h | hat₂
      · exact h
      · rcases List.mem_cons.1 (hp.symm.subset (List.mem_cons_self b t₂)) with h | hbt₁
        · exact h.symm
        · exact hanti a (List.mem_cons_self a t₁) b (List.mem_cons.2 (Or.inr hbt₁))
            (ha1 b hbt₁) (hb2 a hat₂)
    subst hab
    have htail : t₁.Perm t₂ := hp.cons_inv
    have hanti' : ∀ x ∈ t₁, ∀ y ∈ t₁, leB x y = true → leB y x = true → x = y := by
      intro x hx y hy
      exact hanti x (List.mem_cons.2 (Or.inr hx)) y (List.mem_cons.2 (Or.inr hy))
    rw [sorted_perm_eq hanti' htail ht₁ ht₂]

theorem isort_eq_isort
    (htot : ∀ a b, leB a b = true ∨ leB b a = true)
    (htrans : ∀ a b c, leB a b = true → leB b c = true → leB a c = true)
    {S l₁ l₂ : List α}
    (hanti : ∀ a ∈ S, ∀ b ∈ S, leB a b = true → leB b a = true → a = b)
    (h₁ : l₁.Perm S) (h₂ : l₂.Perm S) : isort leB l₁ = isort leB l₂ := by
  have hp : (isort leB l₁).Perm (isort leB l₂) :=
    ((isort_perm l₁).trans (h₁.trans h₂.symm)).trans (isort_perm l₂).symm
  refine sorted_perm_eq ?_ hp (pairwise_isort htot htrans l₁) (pairwise_isort htot htrans l₂)
  intro a ha b hb
  exact hanti a (h₁.subset (mem_isort.1 ha)) b (h₁.subset (mem_isort.1 hb))

end ListLemmas

section StringOrder

theorem charListLt_asymm : ∀ a b : List Char, charListLt a b = true → charListLt b a = false
  | [], [] => by simp [charListLt]
  | [], _ :: _ => by simp [charListLt]
  | _ :: _, [] => by simp [charListLt]
  | a :: as, b :: bs => by
    simp only [charListLt, Bool.or_eq_true, decide_eq_true_eq, Bool.and_eq_true, beq_iff_eq,
      Bool.or_eq_false_iff, decide_eq_false_iff_not, Bool.and_eq_false_iff, beq_eq_false_iff_ne]
    rintro (hab | ⟨rfl, hrec⟩)
    · exact ⟨lt_asymm hab, Or.inl (ne_of_gt hab)⟩
    · exact ⟨lt_irrefl a, Or.inr (charListLt_asymm as bs hrec)⟩

theorem charListLt_trans :
    ∀ a b c : List Char, charListLt a b = true → charListLt b c = true → charListLt a c = true
  | [], _ :: _, _ :: _, _, _ => by simp [charListLt]
  | [], _, [], _, hbc => by
    cases ‹List Char› <;> simp_all [charListLt]
  | [], [], _, hab, _ => by simp [charListLt] at hab
  | _ :: _, [], _, hab, _ => by simp [charListLt] at hab
  | _ :: _, _ :: _, [], _, hbc => by simp [charListLt] at hbc
  | a :: as, b :: bs, c :: cs, hab, hbc => by
    simp only [charListLt, Bool.or_eq_true, decide_eq_true_eq, Bool.and_eq_true,
      beq_iff_eq] at hab hbc ⊢
    rcases hab with hab | ⟨rfl, hab⟩
    · rcases hbc with hbc | ⟨rfl, _⟩
      · exact Or.inl (lt_trans hab hbc)
      · exact Or.inl hab
    · rcases hbc with hbc | ⟨rfl, hbc⟩
      · exact Or.inl hbc
      · exact Or.inr ⟨rfl, charListLt_trans as bs cs hab hbc⟩

theorem charListLt_trichot :
    ∀ a b : List Char, charListLt a b = true ∨ a = b ∨ charListLt b a = true
  | [], [] => Or.inr (Or.inl rfl)
  | [], _ :: _ => Or.inl (by simp [charListLt])
  | _ :: _, [] => Or.inr (Or.inr (by simp [charListLt]))
  | a :: as, b :: bs => by
    rcases lt_trichotomy a b with hab | rfl | hba
    · exact Or.inl (by simp [charListLt, hab])
    · rcases charListLt_trichot as bs with h | rfl | h
      · exact Or.inl (by simp [charListLt, h])
      · exact Or.inr (Or.inl rfl)
      · exact Or.inr (Or.inr (by simp [charListLt, h]))
    · exact Or.inr (Or.inr (by simp [charListLt, hba]))

theorem charListLt_irrefl : ∀ l : List Char, charListLt l l = false
  | [] => rfl
  | a :: as => by
    simp [charListLt, lt_irrefl, charListLt_irrefl as]

theorem strLe_total (a b : String) : strLe a b = true ∨ strLe b a = true := by
  unfold strLe
  rcases charListLt_trichot a.data b.data with h | h | h
  · left
    rw [charListLt_asymm _ _ h]
    rfl
  · left
    rw [h, charListLt_irrefl]
    rfl
  · right
    rw [charListLt_asymm _ _ h]
    rfl

theorem strLe_trans (a b c : String) (hab : strLe a b = true) (hbc : strLe b c = true) :
    strLe a c = true := by
  unfold strLe at hab hbc ⊢
  simp only [Bool.not_eq_true'] at hab hbc ⊢
  by_contra hca
  rw [Bool.not_eq_false] at hca
  rcases charListLt_trichot a.data b.data with h | h | h
  · exact absurd (charListLt_trans _ _ _ hca h) (by simp [hbc])
  · exact absurd (h ▸ hca) (by simp [hbc])
  · exact absurd h (by simp [hab])

theorem strLe_antisym (a b : String) (hab : strLe a b = true) (hba : strLe b a = true) :
    a = b := by
  unfold strLe at hab hba
  simp only [Bool.not_eq_true'] at hab hba
  rcases charListLt_trichot a.data b.data with h | h | h
  · rw [hba] at h
    exact absurd h (by simp)
  · exact congrArg String.mk h
  · rw [hab] at h
    exact absurd h (by simp)

theorem importLineLe_total (a b : String) : importLineLe a b = true ∨ importLineLe b a = true :=
  strLe_total _ _

theorem importLineLe_trans (a b c : String) (hab : importLineLe a b = true)
    (hbc : importLineLe b c = true) : importLineLe a c = true :=
  strLe_trans _ _ _ hab hbc

theorem importLineLe_antisym_key (a b : String) (hab : importLineLe a b = true)
    (hba : importLineLe b a = true) : importSortKey a = importSortKey b :=
  strLe_antisym _ _ hab hba

theorem mem_dedupFuel (x : String) : ∀ (fuel : Nat) (l : List String),
    x ∈ dedupFuel fuel l ↔ x ∈ l
  | _, [] => by cases ‹Nat› <;> simp [dedupFuel]
  | 0, _ :: _ => by simp [dedupFuel]
  | fuel + 1, y :: ys => by
    simp only [dedupFuel, List.mem_cons, mem_dedupFuel x fuel, List.mem_filter,
      decide_eq_true_eq]
    constructor
    · rintro (rfl | ⟨h, _⟩)
      · exact Or.inl rfl
      · exact Or.inr h
    · rintro (rfl | h)
      · exact Or.inl rfl
      · by_cases hxy : x = y
        · exact Or.inl hxy
        · exact Or.inr ⟨h, hxy⟩

theorem mem_dedupKeepFirst (x : String) (l : List String) :
    x ∈ dedupKeepFirst l ↔ x ∈ l :=
  mem_dedupFuel x l.length l

end StringOrder

section PhaseLemmas

theorem migrationsByApp_eq_filter (nodeMap : List Ident) (app : String) :
    migrationsByApp nodeMap app = nodeMap.filter fun p => p.1 == app := by
  induction nodeMap with
  | nil => rfl
  | cons x rest ih =>
    cases x with
    | mk a n =>
      by_cases h : (a == app) = true
      · simp [migrationsByApp, List.filter_cons, h, ih]
      · simp only [Bool.not_eq_true] at h
        simp [migrationsByApp, List.filter_cons, h, ih]

theorem counters_eq_specMax :
    ∀ (nodeMap : List Ident) (ctr : String → Nat),
      currentCountersByApp nodeMap = some ctr → ∀ app, ctr app = specMaxOrdinal nodeMap app := by
  intro nodeMap
  induction nodeMap with
  | nil =>
    intro ctr h app
    have h2 := Option.some.inj h
    rw [← h2]
    simp [specMaxOrdinal]
  | cons x rest ih =>
    intro ctr h app
    cases x with
    | mk a nm =>
      unfold currentCountersByApp at h
      cases hint : int4 nm with
      | none =>
        rw [hint] at h
        exact absurd h (by simp)
      | some n =>
        cases hrec : currentCountersByApp rest with
        | none =>
          rw [hint, hrec] at h
          exact absurd h (by simp)
        | some f =>
          rw [hint, hrec] at h
          have h2 := Option.some.inj h
          rw [← h2]
          by_cases happ : app = a
          · subst happ
            have hspec : specMaxOrdinal ((app, nm) :: rest) app =
                max n (specMaxOrdinal rest app) := by
              simp [specMaxOrdinal, List.filter_cons, List.filterMap_cons, hint]
            rw [hspec, ← ih f hrec app]
            simp
          · have hne : (a == app) = false := by
              simp only [beq_eq_false_iff_ne, ne_eq]
              exact fun hc => happ hc.symm
            have hspec : specMaxOrdinal ((a, nm) :: rest) app = specMaxOrdinal rest app := by
              simp [specMaxOrdinal, List.filter_cons, hne]
            rw [hspec, ← ih f hrec app]
            simp [happ]

theorem set_append_length (l : List α) (x y : α) : (l ++ [x]).set l.length y = l ++ [y] := by
  induction l with
  | nil => rfl
  | cons a as ih =>
    show a :: ((as ++ [x]).set as.length y) = a :: (as ++ [y])
    rw [ih]

mutual

theorem processOp_extends :
    ∀ (heap : FuncHeap) (op : Operation) (h' : FuncHeap) (op' : Operation) (r : List Operation),
      processOp heap op = some (h', op', r) → ∃ t, h' = heap ++ t
  | heap, .schemaOp e s im, h', op', r, h => by
    simp only [processOp, Option.some.injEq, Prod.mk.injEq] at h
    exact ⟨[], by rw [← h.1, List.append_nil]⟩
  | heap, .runPython codeRef e s im, h', op', r, h => by
    cases e with
    | true =>
      replace h : some (heap, Operation.runPython codeRef true s im, ([] : List Operation)) =
          some (h', op', r) := h
      simp only [Option.some.injEq, Prod.mk.injEq] at h
      exact ⟨[], by rw [← h.1, List.append_nil]⟩
    | false =>
      replace h : some
          ((heap ++ [copy_func (heap.getD codeRef default)]).set heap.length
            { copy_func (heap.getD codeRef default) with module := "DELETEMEPLEASE" },
           Operation.runPython heap.length false s im,
           [Operation.runPython heap.length false s im]) = some (h', op', r) := h
      simp only [Option.some.injEq, Prod.mk.injEq] at h
      refine ⟨[{ copy_func (heap.getD codeRef default) with module := "DELETEMEPLEASE" }], ?_⟩
      rw [← h.1, set_append_length]
  | heap, .runSQL e s im, h', op', r, h => by
    cases e with
    | true =>
      replace h : some (heap, Operation.runSQL true s im, ([] : List Operation)) =
          some (h', op', r) := h
      simp only [Option.some.injEq, Prod.mk.injEq] at h
      exact ⟨[], by rw [← h.1, List.append_nil]⟩
    | false =>
      replace h : (none : Option (FuncHeap × Operation × List Operation)) = some (h', op', r) := h
      exact Option.noConfusion h
  | heap, .separateDatabaseAndState st db e s im, h', op', r, h => by
    cases e with
    | true =>
      replace h : some (heap, Operation.separateDatabaseAndState st db true s im,
          ([] : List Operation)) = some (h', op', r) := h
      simp only [Option.some.injEq, Prod.mk.injEq] at h
      exact ⟨[], by rw [← h.1, List.append_nil]⟩
    | false =>
      replace h : (match processOpList heap st with
        | none => none
        | some (h1, st2, rs) =>
          match processOpList h1 db with
          | none => none
          | some (h2, db2, rd) =>
            some (h2, Operation.separateDatabaseAndState st2 db2 false s im, rs ++ rd)) =
          some (h', op', r) := h
      cases hst : processOpList heap st with
      | none => rw [hst] at h; exact Option.noConfusion h
      | some res1 =>
        rw [hst] at h
        obtain ⟨h1, st2, rs⟩ := res1
        replace h : (match processOpList h1 db with
          | none => none
          | some (h2, db2, rd) =>
            some (h2, Operation.separateDatabaseAndState st2 db2 false s im, rs ++ rd)) =
            some (h', op', r) := h
        cases hdb : processOpList h1 db with
        | none =>
          rw [hdb] at h
          exact Option.noConfusion h
        | some res2 =>
          rw [hdb] at h
          obtain ⟨h2, db2, rd⟩ := res2
          replace h : some (h2, Operation.separateDatabaseAndState st2 db2 false s im,
              rs ++ rd) = some (h', op', r) := h
          simp only [Option.some.injEq, Prod.mk.injEq] at h
          obtain ⟨t1, ht1⟩ := processOpList_extends heap st h1 st2 rs hst
          obtain ⟨t2, ht2⟩ := processOpList_extends h1 db h2 db2 rd hdb
          exact ⟨t1 ++ t2, by rw [← h.1, ht2, ht1, List.append_assoc]⟩

theorem processOpList_extends :
    ∀ (heap : FuncHeap) (ops : List Operation) (h' : FuncHeap) (ops' : List Operation)
      (r : List Operation),
      processOpList heap ops = some (h', ops', r) → ∃ t, h' = heap ++ t
  | heap, [], h', ops', r, h => by
    simp only [processOpList, Option.some.injEq, Prod.mk.injEq] at h
    exact ⟨[], by rw [← h.1, List.append_nil]⟩
  | heap, op :: rest, h', ops', r, h => by
    simp only [processOpList] at h
    cases hop : processOp heap op with
    | none => rw [hop] at h; exact absurd h (by simp)
    | some res1 =>
      rw [hop] at h
      obtain ⟨h1, op2, r1⟩ := res1
      replace h : (match processOpList h1 rest with
        | none => none
        | some (h2, rest2, r2) => some (h2, op2 :: rest2, r1 ++ r2)) = some (h', ops', r) := h
      cases hrest : processOpList h1 rest with
      | none => rw [hrest] at h; exact Option.noConfusion h
      | some res2 =>
        rw [hrest] at h
        obtain ⟨h2, rest2, r2⟩ := res2
        replace h : some (h2, op2 :: rest2, r1 ++ r2) = some (h', ops', r) := h
        simp only [Option.some.injEq, Prod.mk.injEq] at h
        obtain ⟨t1, ht1⟩ := processOp_extends heap op h1 op2 r1 hop
        obtain ⟨t2, ht2⟩ := processOpList_extends h1 rest h2 rest2 r2 hrest
        exact ⟨t1 ++ t2, by rw [← h.1, ht2, ht1, List.append_assoc]⟩

end

theorem processReplaced_extends (mi : String → List String) :
    ∀ (idents : List Ident) (heap : FuncHeap) (disk : Disk) (h' : FuncHeap) (d' : Disk)
      (ops : List Operation) (imps : List String),
      processReplaced mi heap disk idents = some (h', d', ops, imps) → ∃ t, h' = heap ++ t
  | [], heap, disk, h', d', ops, imps, h => by
    simp only [processReplaced, Option.some.injEq, Prod.mk.injEq] at h
    exact ⟨[], by rw [← h.1, List.append_nil]⟩
  | r :: rest, heap, disk, h', d', ops, imps, h => by
    simp only [processReplaced] at h
    cases hfind : disk.find? (fun p => p.1 == r) with
    | none => rw [hfind] at h; exact absurd h (by simp)
    | some dmp =>
      rw [hfind] at h
      replace h : (match processOpList heap dmp.2.operations with
        | none => none
        | some (h1, tree, resc) =>
          match processReplaced mi h1
              (disk.map fun p =>
                if p.1 == r then (p.1, { moduleName := p.2.moduleName, operations := tree })
                else p)
              rest with
          | none => none
          | some (h2, d2, ops2, imp2) =>
            some (h2, d2, resc ++ ops2, mi dmp.2.moduleName ++ imp2)) =
          some (h', d', ops, imps) := h
      cases hpo : processOpList heap dmp.2.operations with
      | none => rw [hpo] at h; exact Option.noConfusion h
      | some res1 =>
        rw [hpo] at h
        obtain ⟨h1, tree, resc⟩ := res1
        replace h : (match processReplaced mi h1
            (disk.map fun p =>
              if p.1 == r then (p.1, { moduleName := p.2.moduleName, operations := tree })
              else p)
            rest with
          | none => none
          | some (h2, d2, ops2, imp2) =>
            some (h2, d2, resc ++ ops2, mi dmp.2.moduleName ++ imp2)) =
            some (h', d', ops, imps) := h
        cases hrec : processReplaced mi h1
            (disk.map fun p =>
              if p.1 == r then (p.1, { moduleName := p.2.moduleName, operations := tree })
              else p) rest with
        | none =>
          rw [hrec] at h
          exact Option.noConfusion h
        | some res2 =>
          rw [hrec] at h
          obtain ⟨h2, d2, ops2, imp2⟩ := res2
          replace h : some (h2, d2, resc ++ ops2, mi dmp.2.moduleName ++ imp2) =
              some (h', d', ops, imps) := h
          simp only [Option.some.injEq, Prod.mk.injEq] at h
          obtain ⟨t1, ht1⟩ := processOpList_extends heap _ h1 tree resc hpo
          obtain ⟨t2, ht2⟩ := processReplaced_extends mi rest h1 _ h2 d2 ops2 imp2 hrec
          exact ⟨t1 ++ t2, by rw [← h.1, ht2, ht1, List.append_assoc]⟩

theorem add_non_elidables_extends (mi : String → List String) :
    ∀ (changes : Changes) (heap : FuncHeap) (disk : Disk) (h' : FuncHeap) (d' : Disk)
      (c' : Changes),
      add_non_elidables mi heap disk changes = some (h', d', c') → ∃ t, h' = heap ++ t
  | [], heap, disk, h', d', c', h => by
    simp only [add_non_elidables, Option.some.injEq, Prod.mk.injEq] at h
    exact ⟨[], by rw [← h.1, List.append_nil]⟩
  | (app, migs) :: restApps, heap, disk, h', d', c', h => by
    simp only [add_non_elidables] at h
    cases hpr : processReplaced mi heap disk ((migs.map Migration.replaces).flatten) with
    | none => rw [hpr] at h; exact absurd h (by simp)
    | some res1 =>
      rw [hpr] at h
      obtain ⟨h1, d1, ops, imps⟩ := res1
      replace h : (match migs.getLast? with
        | none => none
        | some last =>
          match add_non_elidables mi h1 d1 restApps with
          | none => none
          | some (h2, d2, c2) =>
            some (h2, d2, (app, migs.dropLast ++
              [{ last with operations := last.operations ++ ops, extra_imports := imps }]) ::
              c2)) = some (h', d', c') := h
      cases hlast : migs.getLast? with
      | none => rw [hlast] at h; exact Option.noConfusion h
      | some last =>
        rw [hlast] at h
        replace h : (match add_non_elidables mi h1 d1 restApps with
          | none => none
          | some (h2, d2, c2) =>
            some (h2, d2, (app, migs.dropLast ++
              [{ last with operations := last.operations ++ ops, extra_imports := imps }]) ::
              c2)) = some (h', d', c') := h
        cases hrec : add_non_elidables mi h1 d1 restApps with
        | none => rw [hrec] at h; exact Option.noConfusion h
        | some res2 =>
          rw [hrec] at h
          obtain ⟨h2, d2, c2⟩ := res2
          replace h : some (h2, d2, (app, migs.dropLast ++
              [{ last with operations := last.operations ++ ops, extra_imports := imps }]) ::
              c2) = some (h', d', c') := h
          simp only [Option.some.injEq, Prod.mk.injEq] at h
          obtain ⟨t1, ht1⟩ := processReplaced_extends mi _ heap disk h1 d1 ops imps hpr
          obtain ⟨t2, ht2⟩ := add_non_elidables_extends mi restApps h1 d1 h2 d2 c2 hrec
          exact ⟨t1 ++ t2, by rw [← h.1, ht2, ht1, List.append_assoc]⟩

theorem rewriteDepList_out (idx : List (Ident × Migration)) :
    ∀ (ds : List DepEntry) (ds' : List DepEntry), rewriteDepList idx ds = some ds' →
      ds' = ds.map fun d => DepEntry.adapter d.ident
  | [], ds', h => by
    replace h : some ([] : List DepEntry) = some ds' := h
    rw [← Option.some.inj h]
    rfl
  | d :: rest, ds', h => by
    simp only [rewriteDepList] at h
    cases hfind : idx.find? (fun p => p.1 == d.ident) with
    | none => rw [hfind] at h; exact Option.noConfusion h
    | some p =>
      rw [hfind] at h
      replace h : (match rewriteDepList idx rest with
        | none => none
        | some ds => some (DepEntry.adapter p.1 :: ds)) = some ds' := h
      cases hrec : rewriteDepList idx rest with
      | none => rw [hrec] at h; exact Option.noConfusion h
      | some ds0 =>
        rw [hrec] at h
        replace h : some (DepEntry.adapter p.1 :: ds0) = some ds' := h
        have hp : p.1 = d.ident := by
          have hpred := List.find?_some hfind
          simpa using hpred
        rw [← Option.some.inj h, hp, rewriteDepList_out idx rest ds0 hrec]
        rfl

theorem rewriteDeps_out (idx : List (Ident × Migration)) (m m2 : Migration)
    (h : rewriteDeps idx m = some m2) : m2 = adapterize m := by
  unfold rewriteDeps at h
  cases hdl : rewriteDepList idx m.dependencies with
  | none => rw [hdl] at h; exact Option.noConfusion h
  | some ds =>
    rw [hdl] at h
    replace h : some { m with dependencies := ds } = some m2 := h
    rw [← Option.some.inj h, adapterize, rewriteDepList_out idx m.dependencies ds hdl]

theorem rewriteList_out (idx : List (Ident × Migration)) :
    ∀ (seen : List Ident) (migs : List Migration) (ms : List Migration) (s : List Ident),
      rewriteList idx seen migs = some (ms, s) →
      (∀ m ∈ migs, migrationKey m ∉ seen) →
      (migs.map migrationKey).Nodup →
      ms = migs.map adapterize ∧ s = seen ++ migs.map migrationKey
  | seen, [], ms, s, h, _, _ => by
    replace h : some (([] : List Migration), seen) = some (ms, s) := h
    simp only [Option.some.injEq, Prod.mk.injEq] at h
    refine ⟨by rw [← h.1]; rfl, by rw [← h.2]; simp⟩
  | seen, m :: rest, ms, s, h, hns, hnd => by
    simp only [rewriteList] at h
    have hcont : seen.contains (migrationKey m) = false := by
      rw [Bool.eq_false_iff]
      intro hc
      exact hns m (List.mem_cons_self m rest) (List.elem_iff.1 hc)
    rw [hcont] at h
    replace h : (match rewriteDeps idx m with
      | none => none
      | some m2 =>
        (rewriteList idx (seen ++ [migrationKey m]) rest).map fun pr => (m2 :: pr.1, pr.2)) =
        some (ms, s) := by
      rw [← h]
      simp
    cases hrw : rewriteDeps idx m with
    | none => rw [hrw] at h; exact Option.noConfusion h
    | some m2 =>
      rw [hrw] at h
      cases hrec : rewriteList idx (seen ++ [migrationKey m]) rest with
      | none =>
        rw [hrec] at h
        exact Option.noConfusion h
      | some pr =>
        rw [hrec] at h
        obtain ⟨ms0, s0⟩ := pr
        replace h : some (m2 :: ms0, s0) = some (ms, s) := h
        simp only [Option.some.injEq, Prod.mk.injEq] at h
        have hnd' : (rest.map migrationKey).Nodup := (List.nodup_cons.1 hnd).2
        have hkm : migrationKey m ∉ rest.map migrationKey := (List.nodup_cons.1 hnd).1
        have hns' : ∀ m' ∈ rest, migrationKey m' ∉ seen ++ [migrationKey m] := by
          intro m' hm'
          rw [List.mem_append]
          rintro (hin | hin)
          · exact hns m' (List.mem_cons.2 (Or.inr hm')) hin
          · rcases List.mem_singleton.1 hin with heq
            exact hkm (heq ▸ List.mem_map_of_mem migrationKey hm')
        obtain ⟨hms0, hs0⟩ := rewriteList_out idx (seen ++ [migrationKey m]) rest ms0 s0
          hrec hns' hnd'
        constructor
        · rw [← h.1, hms0, rewriteDeps_out idx m m2 hrw]
          rfl
        · rw [← h.2, hs0]
          simp
  termination_by _ migs => migs.length

theorem detectRewriteApps_out (idx : List (Ident × Migration)) :
    ∀ (seen : List Ident) (changes : Changes) (out : Changes),
      detectRewriteApps idx seen changes = some out →
      (∀ k ∈ (changes.map Prod.snd).flatten.map migrationKey, k ∉ seen) →
      ((changes.map Prod.snd).flatten.map migrationKey).Nodup →
      out = changes.map fun p => (p.1, p.2.map adapterize)
  | seen, [], out, h, _, _ => by
    replace h : some ([] : Changes) = some out := h
    rw [← Option.some.inj h]
    rfl
  | seen, (app, migs) :: rest, out, h, hns, hnd => by
    simp only [detectRewriteApps] at h
    have hkeys : ((((app, migs) :: rest).map Prod.snd).flatten.map migrationKey) =
        migs.map migrationKey ++ (rest.map Prod.snd).flatten.map migrationKey := by
      simp
    rw [hkeys] at hns hnd
    rcases List.nodup_append.1 hnd with ⟨hnd1, hnd2, hdisj⟩
    cases hrl : rewriteList idx seen migs with
    | none => rw [hrl] at h; exact Option.noConfusion h
    | some pr =>
      rw [hrl] at h
      obtain ⟨ms, seen2⟩ := pr
      replace h : Option.map (fun c => (app, ms) :: c) (detectRewriteApps idx seen2 rest) =
          some out := h
      cases hrec : detectRewriteApps idx seen2 rest with
      | none =>
        rw [hrec] at h
        exact Option.noConfusion h
      | some c2 =>
        rw [hrec] at h
        replace h : some ((app, ms) :: c2) = some out := h
        obtain ⟨hms, hseen2⟩ := rewriteList_out idx seen migs ms seen2 hrl
          (fun m hm => hns (migrationKey m)
            (List.mem_append.2 (Or.inl (List.mem_map_of_mem migrationKey hm)))) hnd1
        have hns2 : ∀ k ∈ (rest.map Prod.snd).flatten.map migrationKey, k ∉ seen2 := by
          intro k hk
          rw [hseen2, List.mem_append]
          rintro (hin | hin)
          · exact hns k (List.mem_append.2 (Or.inr hk)) hin
          · exact hdisj hin hk
        have hout := detectRewriteApps_out idx seen2 rest c2 hrec hns2 hnd2
        rw [← Option.some.inj h, hout, hms]
        rfl

theorem detectChangesRewrite_out (changes : Changes) (out : Changes)
    (hnd : ((changes.map Prod.snd).flatten.map migrationKey).Nodup)
    (h : detectChangesRewrite changes = some out) :
    out = changes.map fun p => (p.1, p.2.map adapterize) := by
  unfold detectChangesRewrite at h
  exact detectRewriteApps_out _ [] changes out h (by intro k _ hc; exact (List.not_mem_nil k) hc)
    hnd

theorem opRescue_elidable (op : Operation) (h : op.elidable = true) : opRescue op = [] := by
  cases op <;> simp_all [opRescue, Operation.elidable]

theorem aco_eq_opsRescue (ops : List Operation) :
    all_custom_operations ops = opsRescue ops := by
  induction ops using all_custom_operations.induct with
  | case1 =>
    rw [all_custom_operations.eq_def]
    rfl
  | case2 op rest h ih =>
    rw [show all_custom_operations (op :: rest) = all_custom_operations rest from by
      rw [all_custom_operations.eq_def]; simp [h]]
    rw [ih]
    show opsRescue rest = opRescue op ++ opsRescue rest
    rw [opRescue_elidable op h]
    rfl
  | case3 rest e s im h ih =>
    simp only [Operation.elidable, Bool.not_eq_true] at h
    subst h
    rw [show all_custom_operations (Operation.runSQL false s im :: rest) =
        Operation.runSQL false s im :: all_custom_operations rest from by
      rw [all_custom_operations.eq_def]; simp [Operation.elidable]]
    rw [ih]
    rfl
  | case4 rest c e s im h ih =>
    simp only [Operation.elidable, Bool.not_eq_true] at h
    subst h
    rw [show all_custom_operations (Operation.runPython c false s im :: rest) =
        Operation.runPython c false s im :: all_custom_operations rest from by
      rw [all_custom_operations.eq_def]; simp [Operation.elidable]]
    rw [ih]
    rfl
  | case5 rest st db e s im h ihst ihdb ih =>
    simp only [Operation.elidable, Bool.not_eq_true] at h
    subst h
    rw [show all_custom_operations (Operation.separateDatabaseAndState st db false s im :: rest) =
        all_custom_operations st ++ all_custom_operations db ++ all_custom_operations rest from by
      rw [all_custom_operations.eq_def]; simp [Operation.elidable]]
    rw [ihst, ihdb, ih]
    show opsRescue st ++ opsRescue db ++ opsRescue rest =
      opRescue (Operation.separateDatabaseAndState st db false s im) ++ opsRescue rest
    rw [show opRescue (Operation.separateDatabaseAndState st db false s im) =
        opsRescue st ++ opsRescue db from rfl, List.append_assoc]
  | case6 rest e s im h ih =>
    simp only [Operation.elidable, Bool.not_eq_true] at h
    subst h
    rw [show all_custom_operations (Operation.schemaOp false s im :: rest) =
        all_custom_operations rest from by
      rw [all_custom_operations.eq_def]; simp [Operation.elidable]]
    rw [ih]
    rfl

mutual

theorem opRescue_raw :
    ∀ (op : Operation) (x : Operation), x ∈ opRescue op → (!x.elidable && x.isRaw) = true
  | .schemaOp e s im, x, hx => absurd hx (List.not_mem_nil x)
  | .runPython c e s im, x, hx => by
    by_cases he : e = true
    · rw [opRescue, if_pos he] at hx
      exact absurd hx (List.not_mem_nil x)
    · rw [opRescue, if_neg he] at hx
      rcases List.mem_singleton.1 hx with rfl
      simp only [Bool.not_eq_true] at he
      subst he
      rfl
  | .runSQL e s im, x, hx => by
    by_cases he : e = true
    · rw [opRescue, if_pos he] at hx
      exact absurd hx (List.not_mem_nil x)
    · rw [opRescue, if_neg he] at hx
      rcases List.mem_singleton.1 hx with rfl
      simp only [Bool.not_eq_true] at he
      subst he
      rfl
  | .separateDatabaseAndState st db e s im, x, hx => by
    by_cases he : e = true
    · rw [opRescue, if_pos he] at hx
      exact absurd hx (List.not_mem_nil x)
    · rw [opRescue, if_neg he] at hx
      rcases List.mem_append.1 hx with hmem | hmem
      · exact opsRescue_raw st x hmem
      · exact opsRescue_raw db x hmem

theorem opsRescue_raw :
    ∀ (ops : List Operation) (x : Operation), x ∈ opsRescue ops → (!x.elidable && x.isRaw) = true
  | [], x, hx => absurd hx (List.not_mem_nil x)
  | op :: rest, x, hx => by
    rw [opsRescue] at hx
    rcases List.mem_append.1 hx with hmem | hmem
    · exact opRescue_raw op x hmem
    · exact opsRescue_raw rest x hmem

end

theorem mem_addToSet (l : String) (s : List String) (x : String) :
    l ∈ addToSet s x → l ∈ s ∨ l = x := by
  unfold addToSet
  split
  · exact Or.inl
  · intro h
    rcases List.mem_append.1 h with h | h
    · exact Or.inl h
    · exact Or.inr (List.mem_singleton.1 h)

theorem mem_mergeModels (l : String) (s : List String) (hl : manualMatch l = true) :
    l ∈ mergeModelsImport s → l ∈ s := by
  unfold mergeModelsImport
  split
  · intro h
    rcases mem_addToSet l _ _ h with h | h
    · exact (List.mem_filter.1 h).1
    · rw [h] at hl
      exact absurd hl (by decide)
  · intro h
    rcases mem_addToSet l _ _ h with h | h
    · exact h
    · rw [h] at hl
      exact absurd hl (by decide)

end PhaseLemmas

/-- C1 counterexample: with one existing record of ordinal 2 for module
`app` and two new records in `changes`, `rename_migrations` names *both*
new records `0003_squashed`; the second new record does not receive the
claimed ordinal `maxOrdinal + i + 1 = 4`, ordinals are reused, and the
two records collide on the same name. -/
theorem C1_renaming_counterexample :
    Option.map (fun c => c.map fun p => (p.1, p.2.map Migration.name))
        (rename_migrations c1NodeMap c1Changes "") =
      some [("app", ["0003_squashed", "0003_squashed"])] ∧
    (("0003_squashed" : String) == "0004_squashed") = false :=
  ⟨rfl, by decide⟩

/-- C1 (amended): the renaming phase gives *every* new record of a module
the name `%04i_suffix` built from `maxOrdinal + 1`, where `maxOrdinal` is
the greatest four-digit ordinal prefix among the module's existing record
names in the graph (0 for a module with no history) and the suffix
defaults to `squashed`; the counter is never stepped, so when a module
receives several new records they all share this single ordinal instead
of the claimed consecutive ordinals `maxOrdinal + i + 1`.  For a module
with one new record the claim's formula holds. -/
theorem C1_renaming_amended (nodeMap : List Ident) (changes : Changes) (mname : String)
    (ctr : String → Nat) (h : currentCountersByApp nodeMap = some ctr) :
    rename_migrations nodeMap changes mname = some (renameExpected nodeMap mname changes) := by
  unfold rename_migrations renameExpected
  rw [h]
  have hc := counters_eq_specMax nodeMap ctr h
  simp only [Option.map_some', Option.some.injEq, hc]

theorem C1_renaming_amended_witness :
    currentCountersByApp c1NodeMap = some c1Ctr ∧
    rename_migrations c1NodeMap c1Changes "" = some (renameExpected c1NodeMap "" c1Changes) :=
  ⟨rfl, C1_renaming_amended c1NodeMap c1Changes "" c1Ctr rfl⟩

/-- C2: evaluating `add_non_elidables` on a history whose single replaced
record holds one non-elidable `RunSQL`: the rescue loop evaluates
`operation.code` on every operation the classifier yields (source line
219), and a `RunSQL` has no `code` attribute, so the squash raises
`AttributeError` (`none`) instead of appending the `RunSQL` to the last
new record as the claim (and the classifier's own purpose) requires. -/
theorem C2_runsql_rescue_crash :
    add_non_elidables noImports [] c2Disk c2Changes = none := rfl

/-- C3: after `replace_current_migrations`, every new record of every
module has `replaces` equal to the identity-sorted list of all
`(module, name)` identities present for that module in the existing
graph — the full pre-squash history, regardless of how many records the
diff produced; for a module absent from the graph the filter is empty
and so is the sorted list. -/
theorem C3_replaces_assignment (nodeMap : List Ident) (changes : Changes) (app : String)
    (migs : List Migration) (m : Migration)
    (hpair : (app, migs) ∈ replace_current_migrations nodeMap changes) (hm : m ∈ migs) :
    m.replaces = isort identLe (nodeMap.filter fun p => p.1 == app) := by
  unfold replace_current_migrations at hpair
  rcases List.mem_map.1 hpair with ⟨q, _, heq⟩
  rw [Prod.mk.injEq] at heq
  obtain ⟨h1, h2⟩ := heq
  rw [← h2] at hm
  rcases List.mem_map.1 hm with ⟨m0, _, heq0⟩
  rw [← heq0, ← h1]
  show isort identLe (migrationsByApp nodeMap q.1) = _
  rw [migrationsByApp_eq_filter]

theorem C3_replaces_assignment_witness :
    ("app", [c3MigOut]) ∈ replace_current_migrations c3NodeMap c3Changes ∧
    c3MigOut ∈ [c3MigOut] ∧
    c3MigOut.replaces = isort identLe (c3NodeMap.filter fun p => p.1 == "app") := by
  have hcomp : replace_current_migrations c3NodeMap c3Changes = [("app", [c3MigOut])] := rfl
  have hmem : ("app", [c3MigOut]) ∈ replace_current_migrations c3NodeMap c3Changes := by
    rw [hcomp]
    exact List.mem_singleton.2 rfl
  exact ⟨hmem, List.mem_singleton.2 rfl,
    C3_replaces_assignment c3NodeMap c3Changes "app" [c3MigOut] c3MigOut hmem
      (List.mem_singleton.2 rfl)⟩

/-- C4 counterexample: rescuing the only (non-elidable `RunPython`)
operation of the replaced record reassigns that shared operation's `code`
to the tagged copy, so after `add_non_elidables` the *original loaded
record's* payload attribution reads `DELETEMEPLEASE` where it read
`app.migrations.0001_initial` before — the replaced record is not
unchanged, contrary to the claim. -/
theorem C4_defensive_copy_counterexample :
    Option.map afterPayloads (add_non_elidables c4Imports c4Heap c4Disk c4Changes) =
      some [["DELETEMEPLEASE"]] ∧
    diskPayloads c4Heap c4Disk = [["app.migrations.0001_initial"]] ∧
    (("DELETEMEPLEASE" : String) == "app.migrations.0001_initial") = false :=
  ⟨rfl, rfl, by decide⟩

/-- C4 (amended): the defensive copy does protect every *function object*
that existed before the rescue — `add_non_elidables` only allocates new
function objects (the tagged copies), never mutating an existing one, so
the heap after a successful run extends the old heap and every
pre-existing index reads exactly as before.  What the claim gets wrong is
the record: the rescued operation object is shared between the replaced
record and the new record, and its `code` attribute is reassigned to the
tagged copy, so the replaced record's operations (their payload
attribution in particular) do change. -/
theorem C4_copy_frame_amended (mi : String → List String) (heap : FuncHeap) (disk : Disk)
    (changes : Changes) (h' : FuncHeap) (d' : Disk) (c' : Changes)
    (h : add_non_elidables mi heap disk changes = some (h', d', c')) :
    ∃ t, h' = heap ++ t ∧
      ∀ i, i < heap.length → h'.getD i default = heap.getD i default := by
  obtain ⟨t, ht⟩ := add_non_elidables_extends mi changes heap disk h' d' c' h
  refine ⟨t, ht, ?_⟩
  intro i hi
  rw [ht, List.getD_append _ _ _ _ hi]

theorem C4_copy_frame_amended_witness :
    add_non_elidables c4Imports c4Heap c4Disk c4Changes =
      some (c4HeapOut, c4DiskOut, c4ChangesOut) ∧
    ∃ t, c4HeapOut = c4Heap ++ t ∧
      ∀ i, i < c4Heap.length → c4HeapOut.getD i default = c4Heap.getD i default :=
  ⟨rfl, C4_copy_frame_amended c4Imports c4Heap c4Disk c4Changes c4HeapOut c4DiskOut
    c4ChangesOut rfl⟩

/-- C5 counterexample: the adapter's hash is the Python hash of the
string `app_label ++ "." ++ name`, and the identities `("a", "b.c")` and
`("a.b", "c")` produce the *same* string `a.b.c` — hence equal hashes —
while their `(module, name)` pairs differ and the adapters compare
unequal; so "hash equal if and only if the pairs are equal" is false. -/
theorem C5_hash_counterexample :
    hashKeyString c5mA = hashKeyString c5mB ∧
    (migrationKey c5mA == migrationKey c5mB) = false ∧
    migEq c5mA c5mB = false :=
  ⟨rfl, by decide, by decide⟩

/-- C5 (amended): adapter equality holds exactly on equal
`(module, name)` pairs; equal pairs force equal hash-key strings (hence
equal hashes) but the converse fails (see the counterexample, where
distinct pairs share the key string); and on a mapping whose new records
have pairwise-distinct identities, a successful `_detect_changes`
post-processing rewrites every dependency entry of every returned record
from the raw identity tuple to the adapter indexed under that same
identity. -/
theorem C5_identity_adapter_amended :
    (∀ m1 m2 : Migration, migEq m1 m2 = true ↔ migrationKey m1 = migrationKey m2) ∧
    (∀ m1 m2 : Migration, migrationKey m1 = migrationKey m2 →
      hashKeyString m1 = hashKeyString m2) ∧
    (∀ changes out : Changes, ((changes.map Prod.snd).flatten.map migrationKey).Nodup →
      detectChangesRewrite changes = some out →
      out = changes.map fun p => (p.1, p.2.map adapterize)) := by
  refine ⟨?_, ?_, ?_⟩
  · intro m1 m2
    unfold migEq migrationKey
    rw [Bool.and_eq_true, beq_iff_eq, beq_iff_eq, Prod.mk.injEq]
    exact ⟨fun hx => ⟨hx.2, hx.1⟩, fun hx => ⟨hx.2, hx.1⟩⟩
  · intro m1 m2 h
    unfold hashKeyString
    unfold migrationKey at h
    rw [Prod.mk.injEq] at h
    rw [h.1, h.2]
  · intro changes out hnd h
    exact detectChangesRewrite_out changes out hnd h

theorem C5_identity_adapter_witness :
    ((c5Changes.map Prod.snd).flatten.map migrationKey).Nodup ∧
    detectChangesRewrite c5Changes = some c5Out ∧
    c5Out = c5Changes.map (fun p => (p.1, p.2.map adapterize)) :=
  ⟨by decide, rfl, C5_identity_adapter_amended.2.2 c5Changes c5Out (by decide) rfl⟩

/-- C6: on every finite operation sequence, `all_custom_operations`
yields exactly what the claim describes — the spec-worded recursion
`opsRescue` (skip an elidable operation entirely, nested lists
unscanned; yield `RunPython`/`RunSQL`; recurse a non-elidable
composite's state list first, storage list second, without yielding the
composite; drop every other variant) — and every yielded operation is a
non-elidable raw operation, so filtering by that predicate changes
nothing.  The function is pure, its result a finite list, so
re-traversal trivially yields the same operations. -/
theorem C6_classifier_contract (ops : List Operation) :
    all_custom_operations ops = opsRescue ops ∧
    (all_custom_operations ops).filter (fun op => !op.elidable && op.isRaw) =
      all_custom_operations ops := by
  refine ⟨aco_eq_opsRescue ops, ?_⟩
  rw [aco_eq_opsRescue ops]
  exact List.filter_eq_self.2 (opsRescue_raw ops)

/-- C7 counterexample: the import line `import important.0007_x` has the
claimed shape (path `important.0007_x`, digits-leading final component),
and the writer does flag it and pull it from the import block — but the
comment block does not receive its module path: `line.split("import")[1]`
splits at the `import` *inside* `important`, so the comment lists the
empty string instead of `important.0007_x`. -/
theorem C7_manual_porting_counterexample :
    (replacementGetKwargs exParams c7Mig false).2 = true ∧
    isort strLe (migrationImportsOf (accumulatedImports exParams.serializeDep c7Mig)) = [""] ∧
    (isort strLe (migrationImportsOf
      (accumulatedImports exParams.serializeDep c7Mig))).contains c7Path = false :=
  ⟨rfl, rfl, by decide⟩

/-- C7 (amended): every accumulated import line matching
`^import (.*)\.\d+[^\s]*$` sets `needs_manual_porting`, is excluded from
the sorted import block (the models merge re-adds only `from ...` lines,
which cannot match), and its module path — the line after the keyword,
stripped — appears in the sorted manual-porting comment list, *provided*
the leading keyword is the only occurrence of `import` in the line
(otherwise `split("import")[1]` truncates the path, as the
counterexample shows). -/
theorem C7_manual_porting_amended (P : WriterParams) (m : Migration) (line : String)
    (hmem : line ∈ accumulatedImports P.serializeDep m)
    (hmatch : manualMatch line = true)
    (honce : pySplitOn line impKw = ["", pyDrop line 6])
    (henum : (P.enum (mergeModelsImport (importsSansManual
        (accumulatedImports P.serializeDep m)))).Perm
      (mergeModelsImport (importsSansManual (accumulatedImports P.serializeDep m)))) :
    (replacementGetKwargs P m false).2 = true ∧
    line ∉ isort importLineLe (P.enum (mergeModelsImport (importsSansManual
      (accumulatedImports P.serializeDep m)))) ∧
    pyStrip (pyDrop line 6) ∈
      isort strLe (migrationImportsOf (accumulatedImports P.serializeDep m)) := by
  refine ⟨?_, ?_, ?_⟩
  · show needsManualOf (accumulatedImports P.serializeDep m) = true
    unfold needsManualOf
    rw [List.any_eq_true]
    exact ⟨line, hmem, hmatch⟩
  · intro hin
    have h1 : line ∈ mergeModelsImport (importsSansManual
        (accumulatedImports P.serializeDep m)) :=
      henum.subset (mem_isort.1 hin)
    have h2 : line ∈ importsSansManual (accumulatedImports P.serializeDep m) :=
      mem_mergeModels line _ hmatch h1
    have h3 := (List.mem_filter.1 h2).2
    rw [hmatch] at h3
    exact absurd h3 (by decide)
  · have hext : extractMigrationImport line = pyStrip (pyDrop line 6) := by
      unfold extractMigrationImport
      rw [honce]
      rfl
    rw [← hext]
    rw [mem_isort, migrationImportsOf, mem_dedupKeepFirst]
    exact List.mem_map_of_mem extractMigrationImport
      (List.mem_filter.2 ⟨hmem, hmatch⟩)

theorem C7_manual_porting_amended_witness :
    c7wLine ∈ accumulatedImports exParams.serializeDep c7wMig ∧
    manualMatch c7wLine = true ∧
    pySplitOn c7wLine impKw = ["", pyDrop c7wLine 6] ∧
    (exParams.enum (mergeModelsImport (importsSansManual
        (accumulatedImports exParams.serializeDep c7wMig)))).Perm
      (mergeModelsImport (importsSansManual
        (accumulatedImports exParams.serializeDep c7wMig))) ∧
    ((replacementGetKwargs exParams c7wMig false).2 = true ∧
     c7wLine ∉ isort importLineLe (exParams.enum (mergeModelsImport (importsSansManual
       (accumulatedImports exParams.serializeDep c7wMig)))) ∧
     pyStrip (pyDrop c7wLine 6) ∈
       isort strLe (migrationImportsOf (accumulatedImports exParams.serializeDep c7wMig))) := by
  have hmem : c7wLine ∈ accumulatedImports exParams.serializeDep c7wMig :=
    show c7wLine ∈ [c7wLine] from List.mem_singleton.2 rfl
  exact ⟨hmem, rfl, rfl, List.Perm.refl _,
    C7_manual_porting_amended exParams c7wMig c7wLine hmem rfl rfl (List.Perm.refl _)⟩

/-- C8 counterexample: with a record needing the two import lines
`import datetime` and `from datetime import timedelta` — distinct lines
with the *same* sort key `datetime` — two renders that differ only in the
iteration order of the import set (both orders are permutations of the
same Python set, as happens across processes with different string-hash
seeds) produce different text: the stable sort keeps the tied lines in
set-iteration order.  So `as_string` is not a pure function of the
record and flag alone. -/
theorem C8_determinism_counterexample :
    c8P1.serializeDep = c8P2.serializeDep ∧
    c8P1.serializeReplaces = c8P2.serializeReplaces ∧
    c8P1.headerText = c8P2.headerText ∧
    (c8P1.enum c8Set).Perm c8Set ∧
    (c8P2.enum c8Set).Perm c8Set ∧
    (migrationWriterAsString c8P1 [] c8Mig false ==
      migrationWriterAsString c8P2 [] c8Mig false) = false :=
  ⟨rfl, rfl, rfl, List.Perm.refl _, List.reverse_perm _, by decide⟩

/-- C8 (amended): with `includeHeader = false`, rendering is a pure
function of the record and the external serializers whenever the final
set of import lines has pairwise-distinct sort keys (the token after the
keyword): any two legitimate iteration orders of that set yield
byte-identical text, because a stable sort of a key-injective set is
unique.  Only on distinct lines with equal keys can the set order leak
into the output (the counterexample); and in Python an import line with
fewer than two tokens would raise `IndexError` in the key function
rather than render. -/
theorem C8_render_deterministic_amended (P1 P2 : WriterParams) (heap : FuncHeap)
    (m : Migration) (S : List String)
    (hdep : P1.serializeDep = P2.serializeDep)
    (hrep : P1.serializeReplaces = P2.serializeReplaces)
    (hS : S = mergeModelsImport (importsSansManual (accumulatedImports P1.serializeDep m)))
    (hkeys : (S.map importSortKey).Nodup)
    (hp1 : (P1.enum S).Perm S) (hp2 : (P2.enum S).Perm S) :
    migrationWriterAsString P1 heap m false = migrationWriterAsString P2 heap m false := by
  have hanti : ∀ a ∈ S, ∀ b ∈ S,
      importLineLe a b = true → importLineLe b a = true → a = b := by
    intro a ha b hb hab hba
    exact List.inj_on_of_nodup_map hkeys ha hb (importLineLe_antisym_key a b hab hba)
  have hsort : isort importLineLe (P1.enum S) = isort importLineLe (P2.enum S) :=
    isort_eq_isort importLineLe_total importLineLe_trans hanti hp1 hp2
  subst hS
  simp only [migrationWriterAsString, migrationWriterGetKwargs, replacementGetKwargs,
    spliceTemplate, ← hdep, ← hrep, hsort]
  rfl

theorem C8_render_deterministic_amended_witness :
    c8P1.serializeDep = c8P2.serializeDep ∧
    c8P1.serializeReplaces = c8P2.serializeReplaces ∧
    c8wSet = mergeModelsImport (importsSansManual
      (accumulatedImports c8P1.serializeDep c8wMig)) ∧
    (c8wSet.map importSortKey).Nodup ∧
    (c8P1.enum c8wSet).Perm c8wSet ∧
    (c8P2.enum c8wSet).Perm c8wSet ∧
    migrationWriterAsString c8P1 [] c8wMig false = migrationWriterAsString c8P2 [] c8wMig false :=
  ⟨rfl, rfl, rfl, by decide, List.Perm.refl _, List.reverse_perm _,
    C8_render_deterministic_amended c8P1 c8P2 [] c8wMig c8wSet rfl rfl rfl (by decide)
      (List.Perm.refl _) (List.reverse_perm _)⟩

/-- C9: when the records of the returned mapping collectively replace
zero identities, the command tail raises the user-facing
`CommandError("There are no migrations to squash.")` and returns no
written files — the error branch is taken before `write_migration_files`
runs, so no partial output exists. -/
theorem C9_nothing_to_squash (P : WriterParams) (heap : FuncHeap) (changes : Changes)
    (h : replacingMigrationsCount changes = 0) :
    handleTail P heap changes = Except.error squashErrorMsg := by
  unfold handleTail
  rw [if_pos h]

theorem C9_nothing_to_squash_witness :
    replacingMigrationsCount c9Changes = 0 ∧
    handleTail exParams [] c9Changes = Except.error squashErrorMsg :=
  ⟨rfl, C9_nothing_to_squash exParams [] c9Changes rfl⟩

/-- C10: `MigrationWriter.as_string` never reads `extra_imports` — for
either value of `includeHeader`, a record rendered with any
`extra_imports` contents (including the import strings the rescue phase
accumulates there) produces exactly the text of the same record with any
other contents, so rescued import lines never appear in the rendered
text at all. -/
theorem C10_extra_imports_ignored (P : WriterParams) (heap : FuncHeap) (m : Migration)
    (extra : List String) (include_header : Bool) :
    migrationWriterAsString P heap { m with extra_imports := extra } include_header =
      migrationWriterAsString P heap m include_header := by
  cases m
  rfl

end DjangoSquash
